import Mathlib

/-!
Shallow embedding of `src/script.js` (a client-side book/tag catalog) and
verification of its specification claims.

Modelling conventions:
* JS strings are Lean `String`s; `charCodeAt` reads UTF-16 code units, so
  comparisons and hashing go through `strCodes` (the UTF-16 code-unit list).
* `localeCompare` is modelled as code-unit lexicographic comparison
  (`strCmp`): like the real locale order it is a consistent total order,
  which is all the sorting logic relies on.
* `Array.prototype.sort` with a consistent comparator is (per the ECMAScript
  standard) a stable sort producing an order sorted w.r.t. the comparator;
  it is modelled as a stable insertion sort (`jsSort`).
* `localStorage` is modelled by the `storedBooks`/`storedTags` fields of the
  application state; `saveBooks`/`saveTags` copy the live collection there.
* `JSON.parse` failure on an import is the `ImportInput.malformed` case; a
  successfully parsed backup document is `ImportInput.parsed`.  The JSON
  value/text round trip (`JSON.parse (JSON.stringify v) = v`) is implicit in
  representing documents by their parsed values.
-/

/-- UTF-16 code units of a character, as JS `charCodeAt` enumerates them. -/
def utf16Codes (c : Char) : List Nat :=
  if c.toNat < 65536 then [c.toNat]
  else [55296 + (c.toNat - 65536) / 1024, 56320 + (c.toNat - 65536) % 1024]

/-- The UTF-16 code-unit sequence of a string. -/
def strCodes (s : String) : List Nat := (s.data.map utf16Codes).flatten

/-- Lexicographic strict order on code-unit lists: JS string `<`. -/
def ltCodes : List Nat → List Nat → Bool
  | [], [] => false
  | [], _ :: _ => true
  | _ :: _, [] => false
  | a :: as, b :: bs => if a < b then true else if b < a then false else ltCodes as bs

/-- Three-way comparison on code-unit lists (result sign as in JS comparators). -/
def cmpCodes (u v : List Nat) : Int :=
  if ltCodes u v then -1 else if ltCodes v u then 1 else 0

/-- Model of `a.localeCompare(b)` (see module comment). -/
def strCmp (a b : String) : Int := cmpCodes (strCodes a) (strCodes b)

/-- The non-strict relation `cmp a b ≤ 0` induced by a JS comparator. -/
def cmpLe (cmp : α → α → Int) (a b : α) : Prop := cmp a b ≤ 0

instance (cmp : α → α → Int) : DecidableRel (cmpLe cmp) :=
  fun a b => inferInstanceAs (Decidable (cmp a b ≤ 0))

/-- Model of `Array.prototype.sort(cmp)`: a stable sort w.r.t. `cmp`. -/
def jsSort (cmp : α → α → Int) (l : List α) : List α :=
  l.insertionSort (cmpLe cmp)


/-- Model of JS `String.prototype.trim` (whitespace stripped on both ends;
restricted to ASCII whitespace, which is all the repository ever feeds it). -/
def jsTrim (s : String) : String :=
  ⟨((s.data.dropWhile Char.isWhitespace).reverse.dropWhile Char.isWhitespace).reverse⟩

/-- Model of JS `String.prototype.toLowerCase` (ASCII case mapping). -/
def toLowerJS (s : String) : String := ⟨s.data.map Char.toLower⟩

/-- Does `pat` occur at the head of `l`? (helper for `jsIncludes`). -/
def charsAt : List Char → List Char → Bool
  | [], _ => true
  | _ :: _, [] => false
  | a :: as, b :: bs => a == b && charsAt as bs

/-- Does `pat` occur anywhere in `l`? (helper for `jsIncludes`). -/
def charsIn (pat : List Char) : List Char → Bool
  | [] => pat.isEmpty
  | c :: rest => charsAt pat (c :: rest) || charsIn pat rest

/-- Model of JS `s.includes(sub)`. -/
def jsIncludes (s sub : String) : Bool := charsIn sub.data s.data

/-- Model of JS `arr.join(" ")`. -/
def joinSpace : List String → String
  | [] => ""
  | [s] => s
  | s :: rest => s ++ " " ++ joinSpace rest

/-- A stored tag: `{ name, color }` (src/script.js, e.g. line 87). -/
structure Tag where
  name : String
  color : String
deriving DecidableEq, Repr

/-- The `year` field of a book: a number or a string (src/script.js line 280
produces either; the empty string stands for the absent year). -/
inductive YearVal where
  | num (n : Int)
  | str (s : String)
deriving DecidableEq, Repr

/-- JS `String(year)` / `(year ?? "").toString()`. -/
def YearVal.toStr : YearVal → String
  | .num n => toString n
  | .str s => s

/-- A book record as built by `saveForm` (src/script.js line 290). -/
structure Book where
  title : String
  author : String
  year : YearVal
  link : String
  tags : List String
deriving DecidableEq, Repr

/-- The sortable fields passed to `sortBy` by the UI. -/
inductive SortKey where
  | title
  | author
  | year
  | link
deriving DecidableEq, Repr

/-- JS `(a[key] ?? "").toString()` for a book. -/
def Book.fieldStr (b : Book) : SortKey → String
  | .title => b.title
  | .author => b.author
  | .year => b.year.toStr
  | .link => b.link

/-- The whole in-memory and persisted state of the script: the module-level
`books`, `tags`, `lastSortKey`, `sortOrder` variables (src/script.js lines
24-27) plus the two `localStorage` slots (`books_v1`, `tags_v1`). -/
structure AppState where
  books : List Book
  tags : List Tag
  lastSortKey : Option SortKey
  sortOrder : Int
  storedBooks : List Book
  storedTags : List Tag
deriving DecidableEq, Repr

/-- JS `x | 0`: wrap an exact integer to signed 32 bits. -/
def wrap32 (x : Int) : Int := (x + 2147483648) % 4294967296 - 2147483648

/-- `colorForTagName` (src/script.js lines 62-67): rolling 31-hash of the
UTF-16 code units, wrapped to 32 bits at each step, mapped to a hue. -/
def colorForTagName (name : String) : String :=
  let h := (strCodes name).foldl (fun h c => wrap32 (h * 31 + c)) 0
  let hue := h.natAbs % 360
  "hsl(" ++ toString hue ++ " 70% 45%)"

/-- The tag comparator used throughout the script:
`(a,b) => String(a.name).localeCompare(String(b.name))`. -/
def tagCmp (a b : Tag) : Int := strCmp a.name b.name

/-- `PREDEFINED_TAGS` (src/script.js lines 17-21). -/
def PREDEFINED_TAGS : List Tag :=
  [⟨"Math", "#2f9e44"⟩, ⟨"Physics", "#d9480f"⟩, ⟨"Biology", "#8d6e21"⟩]

/-- `findTagByName` (src/script.js lines 78-80). -/
def findTagByName (tags : List Tag) (name : String) : Option Tag :=
  tags.find? (fun t => t.name == name)

/-- `ensureTagExists` (src/script.js lines 82-93).  Returns the JS return
value (`null` = `none`) and the state after the mutation; `saveTags()` is the
update of `storedTags`. -/
def ensureTagExists (name : String) (s : AppState) : Option Tag × AppState :=
  let name := jsTrim name
  if name == "" then (none, s)
  else
    match findTagByName s.tags name with
    | some existing => (some existing, s)
    | none =>
      let t : Tag := ⟨name, colorForTagName name⟩
      let newTags := jsSort tagCmp (s.tags ++ [t])
      (some t, { s with tags := newTags, storedTags := newTags })

/-- `deleteTag` (src/script.js lines 324-345); `confirm` is the user's answer
to the confirmation dialog. -/
def deleteTag (tagName : String) (confirm : Bool) (s : AppState) : AppState :=
  match findTagByName s.tags tagName with
  | none => s
  | some _ =>
    if !confirm then s
    else
      let newBooks := s.books.map fun b =>
        { b with tags := b.tags.filter (fun t => !(t == tagName)) }
      let newTags := s.tags.filter (fun t => !(t.name == tagName))
      { s with books := newBooks, storedBooks := newBooks,
               tags := newTags, storedTags := newTags }

/-- First-occurrence deduplication, tracking the already-seen elements
(helper for `jsSetDedup`). -/
def jsSetDedupAux (seen : List String) : List String → List String
  | [] => []
  | x :: xs =>
    if seen.contains x then jsSetDedupAux seen xs
    else x :: jsSetDedupAux (x :: seen) xs

/-- First-occurrence deduplication: JS `Array.from(new Set(arr))`. -/
def jsSetDedup (l : List String) : List String := jsSetDedupAux [] l

/-- Decimal digit run, or `none` when a non-digit appears (helper). -/
def decDigitsAux : List Char → Nat → Option Nat
  | [], acc => some acc
  | c :: cs, acc =>
    if c.isDigit then decDigitsAux cs (acc * 10 + (c.toNat - 48)) else none

/-- Modelled from JS `Number(string)` restricted to optionally signed decimal
integer literals (other numeric shapes — floats, hex, exponents — never occur
in any claim and are outside the model); `none` is `NaN`. -/
def jsNumber? (s : String) : Option Int :=
  match (jsTrim s).data with
  | [] => some 0
  | c :: cs =>
    if c == '-' then (match cs with
      | [] => none
      | _ => (decDigitsAux cs 0).map (fun n => -(n : Int)))
    else if c == '+' then (match cs with
      | [] => none
      | _ => (decDigitsAux cs 0).map (fun n => (n : Int)))
    else (decDigitsAux (c :: cs) 0).map (fun n => (n : Int))

/-- Year normalization in `saveForm` (src/script.js line 280):
`yearVal === "" ? "" : (isNaN(Number(yearVal)) ? yearVal : Number(yearVal))`. -/
def normYear (yearVal : String) : YearVal :=
  if yearVal == "" then .str ""
  else
    match jsNumber? yearVal with
    | some n => .num n
    | none => .str yearVal

/-- The form fields read by `saveForm` (src/script.js lines 276-282):
`editingIndex`, the four text inputs, and the checked tag checkboxes. -/
structure FormInput where
  editingIndex : Int
  title : String
  author : String
  yearVal : String
  link : String
  checked : List String
deriving DecidableEq, Repr

/-- Outcome of `saveForm`: the validation alert, or a successful save. -/
inductive SaveResult where
  | validationError
  | saved
deriving DecidableEq, Repr

/-- The `uniqueTags.forEach(t => ensureTagExists(t))` loop in `saveForm`
(src/script.js line 287), as a state fold. -/
def ensureAllTags (l : List String) (s : AppState) : AppState :=
  l.foldl (fun st t => (ensureTagExists t st).2) s

/-- The book object built by `saveForm` (src/script.js lines 286-290). -/
def bookFromForm (f : FormInput) : Book :=
  { title := jsTrim f.title
    author := jsTrim f.author
    year := normYear f.yearVal
    link := jsTrim f.link
    tags := jsSort strCmp (jsSetDedup f.checked) }

/-- `saveForm` (src/script.js lines 275-301): validate, ensure the checked
tags exist, then replace in place (index in bounds) or append (the add path,
entered for any out-of-bounds index). -/
def saveForm (f : FormInput) (s : AppState) : SaveResult × AppState :=
  let idx := f.editingIndex
  let title := jsTrim f.title
  let author := jsTrim f.author
  if title == "" || author == "" then (.validationError, s)
  else
    let uniqueTags := jsSetDedup f.checked
    let s1 := ensureAllTags uniqueTags s
    let bookObj := bookFromForm f
    let newBooks :=
      if 0 ≤ idx ∧ idx < (s1.books.length : Int) then
        s1.books.set idx.toNat bookObj
      else s1.books ++ [bookObj]
    (.saved, { s1 with books := newBooks, storedBooks := newBooks })

/-- JS `arr.splice(start, 1)` (delete one element, with the ECMAScript index
clamping: a negative `start` counts from the end, clamped at 0). -/
def jsSpliceOne (l : List α) (start : Int) : List α :=
  let k : Nat := if start < 0 then ((l.length : Int) + start).toNat
    else min start.toNat l.length
  l.take k ++ l.drop (k + 1)

/-- `deleteBook` (src/script.js lines 315-321); `confirm` is the user's
answer to the confirmation dialog. -/
def deleteBook (index : Int) (confirm : Bool) (s : AppState) : AppState :=
  if !confirm then s
  else
    let newBooks := jsSpliceOne s.books index
    { s with books := newBooks, storedBooks := newBooks }

/-- The lowercased sort field of a book, as a code-unit list:
`(a[key] ?? "").toString().toLowerCase()` (src/script.js lines 224-225). -/
def sortFieldCodes (key : SortKey) (b : Book) : List Nat :=
  strCodes (toLowerJS (b.fieldStr key))

/-- The comparator passed to `books.sort` in `sortBy`
(src/script.js lines 223-229). -/
def sortCmp (key : SortKey) (order : Int) (a b : Book) : Int :=
  if ltCodes (sortFieldCodes key a) (sortFieldCodes key b) then -1 * order
  else if ltCodes (sortFieldCodes key b) (sortFieldCodes key a) then 1 * order
  else 0

/-- `sortBy` (src/script.js lines 219-232). -/
def sortBy (key : SortKey) (s : AppState) : AppState :=
  let order := if s.lastSortKey = some key then -s.sortOrder else 1
  let newBooks := jsSort (sortCmp key order) s.books
  { s with books := newBooks, storedBooks := newBooks,
           lastSortKey := some key, sortOrder := order }

/-- The filter widgets read by `applyFilters` (src/script.js lines 198-201). -/
structure FilterInput where
  searchInput : String
  selectedAuthor : String
  selectedYear : String
  selectedTags : List String
deriving DecidableEq, Repr

/-- The filtering core of `applyFilters` (src/script.js lines 197-217), as a
pure projection of the book list (rendering stripped). -/
def applyFilters (f : FilterInput) (books : List Book) : List Book :=
  let q := jsTrim (toLowerJS f.searchInput)
  books.filter fun b =>
    let title := toLowerJS b.title
    let author := toLowerJS b.author
    let tagsLower := joinSpace (b.tags.map toLowerJS)
    let textMatch := q == "" || jsIncludes title q || jsIncludes author q
      || jsIncludes tagsLower q
    let authorMatch := f.selectedAuthor == "" || b.author == f.selectedAuthor
    let yearMatch := f.selectedYear == "" || b.year.toStr == f.selectedYear
    let tagsMatch := f.selectedTags.isEmpty
      || f.selectedTags.all (fun t => b.tags.contains t)
    textMatch && authorMatch && yearMatch && tagsMatch

/-- An entry of a backup document's `tags` array: a bare name string, or an
object; `obj name ""` stands for an object with a falsy/absent `color`. -/
inductive TagIn where
  | str (s : String)
  | obj (name : String) (color : String)
deriving DecidableEq, Repr

/-- The name an imported tags entry carries. -/
def TagIn.tagName : TagIn → String
  | .str s => s
  | .obj n _ => n

/-- Tag normalization in `importBackup` (src/script.js lines 372-375). -/
def importTag : TagIn → Tag
  | .str s => ⟨s, colorForTagName s⟩
  | .obj n c => ⟨n, if c == "" then colorForTagName n else c⟩

/-- A parsed backup document.  `books`/`tags` is `none` when the field is
absent or not an array (the corresponding store is then left alone). -/
structure BackupDoc where
  books : Option (List Book)
  tags : Option (List TagIn)
deriving DecidableEq, Repr

/-- What the file reader hands to `importBackup`: unparseable JSON, or a
parsed document. -/
inductive ImportInput where
  | malformed
  | parsed (doc : BackupDoc)
deriving DecidableEq, Repr

/-- Outcome of `importBackup`: the "Invalid JSON file." alert, or success. -/
inductive ImportResult where
  | importError
  | success
deriving DecidableEq, Repr

/-- `importBackup` (src/script.js lines 361-390): replace each store whose
field is present, normalizing and re-sorting tags, then persist both; a JSON
parse failure reaches the catch block and touches nothing. -/
def importBackup (input : ImportInput) (s : AppState) : ImportResult × AppState :=
  match input with
  | .malformed => (.importError, s)
  | .parsed doc =>
    let newBooks := match doc.books with
      | some bs => bs
      | none => s.books
    let newTags := match doc.tags with
      | some ts => jsSort tagCmp (ts.map importTag)
      | none => s.tags
    (.success, { s with books := newBooks, storedBooks := newBooks,
                        tags := newTags, storedTags := newTags })

/-- `exportBackup` (src/script.js lines 348-359): the document a re-import
parses from the serialized `{ books, tags }` envelope. -/
def exportBackup (s : AppState) : BackupDoc :=
  { books := some s.books
    tags := some (s.tags.map fun t => TagIn.obj t.name t.color) }

/-- `loadTags` (src/script.js lines 43-59), on typed storage content: a
nonempty persisted array is sorted and used; anything else (absent, corrupt,
or empty) falls back to the predefined seed. -/
def loadTags (stored : Option (List Tag)) : List Tag :=
  match stored with
  | some parsed =>
    if parsed.isEmpty then jsSort tagCmp PREDEFINED_TAGS
    else jsSort tagCmp parsed
  | none => jsSort tagCmp PREDEFINED_TAGS

/-- One step of the `init` loop (src/script.js lines 414-416): push the
predefined tag unless a tag of that name is already present. -/
def initStep (ts : List Tag) (pt : Tag) : List Tag :=
  if (findTagByName ts pt.name).isSome then ts else ts ++ [pt]

/-- `init` (src/script.js lines 413-420): push any missing predefined tag,
re-sort, persist. -/
def init (s : AppState) : AppState :=
  let tags1 := PREDEFINED_TAGS.foldl initStep s.tags
  let tags2 := jsSort tagCmp tags1
  { s with tags := tags2, storedTags := tags2 }

/-- A full page load: `loadBooks`/`loadTags` from storage (`none` = absent or
corrupt), then the top-level `init()` call (src/script.js lines 24-25, 422). -/
def startup (storedBooks : Option (List Book)) (storedTags : Option (List Tag)) :
    AppState :=
  init { books := storedBooks.getD []
         tags := loadTags storedTags
         lastSortKey := none
         sortOrder := 1
         storedBooks := storedBooks.getD []
         storedTags := loadTags storedTags }

/-- The states the script itself can be in: a fresh first run, every
user-triggerable mutation, and a reload from the storage the script wrote. -/
inductive Reachable : AppState → Prop where
  | fresh : Reachable (startup none none)
  | restart {s} : Reachable s →
      Reachable (startup (some s.storedBooks) (some s.storedTags))
  | ensure {s} (name : String) : Reachable s →
      Reachable (ensureTagExists name s).2
  | delTag {s} (n : String) (c : Bool) : Reachable s → Reachable (deleteTag n c s)
  | save {s} (f : FormInput) : Reachable s → Reachable (saveForm f s).2
  | delBook {s} (i : Int) (c : Bool) : Reachable s → Reachable (deleteBook i c s)
  | sort {s} (k : SortKey) : Reachable s → Reachable (sortBy k s)
  | imp {s} (inp : ImportInput) : Reachable s → Reachable (importBackup inp s).2


/-- Spec-side: the tag store is sorted ascending by name w.r.t. the
script's comparator. -/
def TagsSorted (ts : List Tag) : Prop := List.Sorted (cmpLe tagCmp) ts

/-- Spec-side: no two stored tags share a name. -/
def TagNamesNodup (ts : List Tag) : Prop := (ts.map Tag.name).Nodup

/-- Spec-side: the TagStore invariant (sorted, duplicate-free names). -/
def TagsInv (ts : List Tag) : Prop := TagsSorted ts ∧ TagNamesNodup ts

instance tagsSortedDec (ts : List Tag) : Decidable (TagsSorted ts) :=
  inferInstanceAs (Decidable (List.Sorted (cmpLe tagCmp) ts))

instance tagNamesNodupDec (ts : List Tag) : Decidable (TagNamesNodup ts) :=
  inferInstanceAs (Decidable ((ts.map Tag.name).Nodup))

instance tagsInvDec (ts : List Tag) : Decidable (TagsInv ts) := by
  unfold TagsInv
  exact inferInstance

/-- Spec-side text predicate: case-insensitive substring match against
title, author, or the (space-joined) concatenation of the tag names; an
empty (or all-whitespace) query matches everything. -/
def textMatchSpec (f : FilterInput) (b : Book) : Prop :=
  jsTrim (toLowerJS f.searchInput) = ""
    ∨ jsIncludes (toLowerJS b.title) (jsTrim (toLowerJS f.searchInput)) = true
    ∨ jsIncludes (toLowerJS b.author) (jsTrim (toLowerJS f.searchInput)) = true
    ∨ jsIncludes (joinSpace (b.tags.map toLowerJS)) (jsTrim (toLowerJS f.searchInput)) = true

/-- Spec-side author predicate: exact match; empty selection matches all. -/
def authorMatchSpec (f : FilterInput) (b : Book) : Prop :=
  f.selectedAuthor = "" ∨ b.author = f.selectedAuthor

/-- Spec-side year predicate: exact match (on the string form of the year);
empty selection matches all. -/
def yearMatchSpec (f : FilterInput) (b : Book) : Prop :=
  f.selectedYear = "" ∨ b.year.toStr = f.selectedYear

/-- Spec-side tag predicate: every selected tag is present in the book's tag
set (so an empty selection matches everything vacuously). -/
def tagMatchSpec (f : FilterInput) (b : Book) : Prop :=
  ∀ t ∈ f.selectedTags, t ∈ b.tags

/-- Spec-side visibility: the conjunction of all four filter predicates. -/
def visibleSpec (f : FilterInput) (b : Book) : Prop :=
  textMatchSpec f b ∧ authorMatchSpec f b ∧ yearMatchSpec f b ∧ tagMatchSpec f b

instance visibleSpecDec (f : FilterInput) (b : Book) : Decidable (visibleSpec f b) := by
  unfold visibleSpec textMatchSpec authorMatchSpec yearMatchSpec tagMatchSpec
  exact inferInstance

/-- The invariant tying a live state to what the script itself can produce:
tag store sorted, every stored color truthy (non-empty), and the storage
slots in sync with the in-memory collections. -/
def StateInv (s : AppState) : Prop :=
  TagsSorted s.tags ∧ (∀ t ∈ s.tags, t.color ≠ "")
    ∧ s.storedBooks = s.books ∧ s.storedTags = s.tags


/-- A one-book state, for exercising delete-by-index behaviour. -/
def oneBookState : AppState :=
  { books := [⟨"B", "A", YearVal.num 2001, "", []⟩]
    tags := []
    lastSortKey := none
    sortOrder := 1
    storedBooks := [⟨"B", "A", YearVal.num 2001, "", []⟩]
    storedTags := [] }

/-- The two-book state of the spec's sorting example. -/
def twoBookState : AppState :=
  { books := [⟨"B", "A", YearVal.num 2001, "", []⟩, ⟨"A", "Z", YearVal.num 1999, "", []⟩]
    tags := []
    lastSortKey := none
    sortOrder := 1
    storedBooks := [⟨"B", "A", YearVal.num 2001, "", []⟩, ⟨"A", "Z", YearVal.num 1999, "", []⟩]
    storedTags := [] }

theorem ltCodes_irrefl (u : List Nat) : ltCodes u u = false := by
  induction u with
  | nil => rfl
  | cons a as ih => simp [ltCodes, ih]

theorem ltCodes_trans {u v w : List Nat} (h1 : ltCodes u v = true)
    (h2 : ltCodes v w = true) : ltCodes u w = true := by
  induction u generalizing v w with
  | nil =>
    cases v with
    | nil => simp [ltCodes] at h1
    | cons b bs =>
      cases w with
      | nil => simp [ltCodes] at h2
      | cons c cs => rfl
  | cons a as ih =>
    cases v with
    | nil => simp [ltCodes] at h1
    | cons b bs =>
      cases w with
      | nil => simp [ltCodes] at h2
      | cons c cs =>
        simp only [ltCodes] at h1 h2 ⊢
        by_cases hab : a < b
        · by_cases hbc : b < c
          · simp [Nat.lt_trans hab hbc]
          · by_cases hcb : c < b
            · simp [hbc, hcb] at h2
            · have hbc' : b = c := Nat.le_antisymm (Nat.le_of_not_lt hcb) (Nat.le_of_not_lt hbc)
              subst hbc'
              simp [hab]
        · by_cases hba : b < a
          · simp [hab, hba] at h1
          · have hab' : a = b := Nat.le_antisymm (Nat.le_of_not_lt hba) (Nat.le_of_not_lt hab)
            subst hab'
            simp only [if_neg hab, if_neg hba] at h1 ⊢
            by_cases hac : a < c
            · simp [hac]
            · by_cases hca : c < a
              · simp [hac, hca] at h2
              · simp only [if_neg hac, if_neg hca] at h2 ⊢
                exact ih h1 h2

theorem ltCodes_asymm {u v : List Nat} (h : ltCodes u v = true) :
    ltCodes v u = false := by
  by_contra h'
  have h'' : ltCodes v u = true := by
    cases hvu : ltCodes v u with
    | false => exact absurd hvu h'
    | true => rfl
  have := ltCodes_trans h h''
  rw [ltCodes_irrefl] at this
  exact Bool.false_ne_true this

theorem ltCodes_conn {u v : List Nat} (h1 : ltCodes u v = false)
    (h2 : ltCodes v u = false) : u = v := by
  induction u generalizing v with
  | nil =>
    cases v with
    | nil => rfl
    | cons b bs => simp [ltCodes] at h1
  | cons a as ih =>
    cases v with
    | nil => simp [ltCodes] at h2
    | cons b bs =>
      simp only [ltCodes] at h1 h2
      by_cases hab : a < b
      · simp [hab] at h1
      · by_cases hba : b < a
        · simp [hab, hba] at h1
          simp [hba] at h2
        · have hab' : a = b := Nat.le_antisymm (Nat.le_of_not_lt hba) (Nat.le_of_not_lt hab)
          subst hab'
          simp only [if_neg hab, if_neg hba] at h1 h2
          rw [ih h1 h2]

theorem ltCodes_neg_trans {u v w : List Nat} (h1 : ltCodes v u = false)
    (h2 : ltCodes w v = false) : ltCodes w u = false := by
  cases huv : ltCodes u v with
  | false =>
    have := ltCodes_conn huv h1
    subst this
    exact h2
  | true =>
    by_contra h'
    have hwu : ltCodes w u = true := by
      cases hx : ltCodes w u with
      | false => exact absurd hx h'
      | true => rfl
    have := ltCodes_trans hwu huv
    rw [h2] at this
    exact Bool.false_ne_true this

theorem cmpCodes_le_iff (u v : List Nat) : cmpCodes u v ≤ 0 ↔ ltCodes v u = false := by
  unfold cmpCodes
  by_cases h : ltCodes u v = true
  · simp [h, ltCodes_asymm h]
  · have h' : ltCodes u v = false := by
      cases hx : ltCodes u v with
      | false => rfl
      | true => exact absurd hx h
    cases hvu : ltCodes v u with
    | false => simp [h', hvu]
    | true => simp [h', hvu]

theorem cmpCodes_nonneg_iff (u v : List Nat) : 0 ≤ cmpCodes u v ↔ ltCodes u v = false := by
  unfold cmpCodes
  by_cases h : ltCodes u v = true
  · simp [h]
  · have h' : ltCodes u v = false := by
      cases hx : ltCodes u v with
      | false => rfl
      | true => exact absurd hx h
    cases hvu : ltCodes v u with
    | false => simp [h', hvu]
    | true => simp [h', hvu]

theorem keyTotal (f : α → List Nat) :
    IsTotal α (cmpLe (fun a b => cmpCodes (f a) (f b))) := by
  constructor
  intro a b
  show cmpCodes (f a) (f b) ≤ 0 ∨ cmpCodes (f b) (f a) ≤ 0
  rw [cmpCodes_le_iff, cmpCodes_le_iff]
  cases h : ltCodes (f b) (f a) with
  | false => exact Or.inl rfl
  | true => exact Or.inr (ltCodes_asymm h)

theorem keyTrans (f : α → List Nat) :
    IsTrans α (cmpLe (fun a b => cmpCodes (f a) (f b))) := by
  constructor
  intro a b c h1 h2
  have h1' : cmpCodes (f a) (f b) ≤ 0 := h1
  have h2' : cmpCodes (f b) (f c) ≤ 0 := h2
  show cmpCodes (f a) (f c) ≤ 0
  rw [cmpCodes_le_iff] at h1' h2' ⊢
  exact ltCodes_neg_trans h1' h2'

theorem jsSort_perm (cmp : α → α → Int) (l : List α) : (jsSort cmp l).Perm l :=
  List.perm_insertionSort (cmpLe cmp) l

theorem jsSort_eq_self (cmp : α → α → Int) {l : List α}
    (h : List.Sorted (cmpLe cmp) l) : jsSort cmp l = l :=
  h.insertionSort_eq

theorem jsSort_sorted (cmp : α → α → Int) [IsTotal α (cmpLe cmp)]
    [IsTrans α (cmpLe cmp)] (l : List α) :
    List.Sorted (cmpLe cmp) (jsSort cmp l) :=
  List.sorted_insertionSort (cmpLe cmp) l

theorem codes_le_total (u v : List Nat) : cmpCodes u v ≤ 0 ∨ cmpCodes v u ≤ 0 := by
  rw [cmpCodes_le_iff, cmpCodes_le_iff]
  cases h : ltCodes v u with
  | false => exact Or.inl rfl
  | true => exact Or.inr (ltCodes_asymm h)

theorem codes_nonneg_total (u v : List Nat) : 0 ≤ cmpCodes u v ∨ 0 ≤ cmpCodes v u := by
  rw [cmpCodes_nonneg_iff, cmpCodes_nonneg_iff]
  cases h : ltCodes u v with
  | false => exact Or.inl rfl
  | true => exact Or.inr (ltCodes_asymm h)

theorem codes_le_trans {u v w : List Nat} (h1 : cmpCodes u v ≤ 0)
    (h2 : cmpCodes v w ≤ 0) : cmpCodes u w ≤ 0 := by
  rw [cmpCodes_le_iff] at h1 h2 ⊢
  exact ltCodes_neg_trans h1 h2

theorem codes_nonneg_trans {u v w : List Nat} (h1 : 0 ≤ cmpCodes u v)
    (h2 : 0 ≤ cmpCodes v w) : 0 ≤ cmpCodes u w := by
  rw [cmpCodes_nonneg_iff] at h1 h2 ⊢
  exact ltCodes_neg_trans h2 h1

theorem keyTotalMul (f : α → List Nat) (o : Int) (ho : o = 1 ∨ o = -1) :
    IsTotal α (cmpLe (fun a b => cmpCodes (f a) (f b) * o)) := by
  constructor
  intro a b
  show cmpCodes (f a) (f b) * o ≤ 0 ∨ cmpCodes (f b) (f a) * o ≤ 0
  rcases ho with rfl | rfl
  · rcases codes_le_total (f a) (f b) with h | h
    · exact Or.inl (by omega)
    · exact Or.inr (by omega)
  · rcases codes_nonneg_total (f a) (f b) with h | h
    · exact Or.inl (by omega)
    · exact Or.inr (by omega)

theorem keyTransMul (f : α → List Nat) (o : Int) (ho : o = 1 ∨ o = -1) :
    IsTrans α (cmpLe (fun a b => cmpCodes (f a) (f b) * o)) := by
  constructor
  intro a b c h1 h2
  have h1' : cmpCodes (f a) (f b) * o ≤ 0 := h1
  have h2' : cmpCodes (f b) (f c) * o ≤ 0 := h2
  show cmpCodes (f a) (f c) * o ≤ 0
  rcases ho with rfl | rfl
  · have := codes_le_trans (u := f a) (v := f b) (w := f c) (by omega) (by omega)
    omega
  · have := codes_nonneg_trans (u := f a) (v := f b) (w := f c) (by omega) (by omega)
    omega

theorem keyTotalTag : IsTotal Tag (cmpLe tagCmp) :=
  keyTotal (fun t : Tag => strCodes t.name)

theorem keyTransTag : IsTrans Tag (cmpLe tagCmp) :=
  keyTrans (fun t : Tag => strCodes t.name)

theorem keyTotalStr : IsTotal String (cmpLe strCmp) := keyTotal strCodes

theorem keyTransStr : IsTrans String (cmpLe strCmp) := keyTrans strCodes

theorem tagsSorted_jsSort (l : List Tag) : TagsSorted (jsSort tagCmp l) := by
  haveI := keyTotalTag
  haveI := keyTransTag
  exact jsSort_sorted tagCmp l

theorem strSorted_jsSort (l : List String) :
    List.Sorted (cmpLe strCmp) (jsSort strCmp l) := by
  haveI := keyTotalStr
  haveI := keyTransStr
  exact jsSort_sorted strCmp l

theorem tagNamesNodup_perm {l1 l2 : List Tag} (h : l1.Perm l2) :
    TagNamesNodup l1 ↔ TagNamesNodup l2 :=
  (h.map Tag.name).nodup_iff

theorem findTagByName_none_iff (ts : List Tag) (n : String) :
    findTagByName ts n = none ↔ ∀ x ∈ ts, x.name ≠ n := by
  simp [findTagByName, List.find?_eq_none]

theorem findTagByName_some (ts : List Tag) (n : String) (t : Tag)
    (h : findTagByName ts n = some t) : t ∈ ts ∧ t.name = n := by
  refine ⟨List.mem_of_find?_eq_some h, ?_⟩
  have := List.find?_some h
  simpa using this

theorem find?_unique {p : α → Bool} {l : List α} {t : α} (hmem : t ∈ l)
    (hp : p t = true) (huniq : ∀ x ∈ l, p x = true → x = t) :
    l.find? p = some t := by
  induction l with
  | nil => cases hmem
  | cons a as ih =>
    by_cases ha : p a = true
    · have : a = t := huniq a (List.mem_cons_self a as) ha
      subst this
      exact List.find?_cons_of_pos as ha
    · have hmem' : t ∈ as := by
        rcases List.mem_cons.mp hmem with rfl | h
        · exact absurd hp ha
        · exact h
      rw [List.find?_cons_of_neg as ha]
      exact ih hmem' (fun x hx hpx => huniq x (List.mem_cons_of_mem a hx) hpx)

theorem colorForTagName_ne (n : String) : colorForTagName n ≠ "" := by
  unfold colorForTagName
  intro h
  have hl := congrArg String.length h
  rw [String.length_append, String.length_append] at hl
  have h4 : ("hsl(" : String).length = 4 := by decide
  have h0 : ("" : String).length = 0 := by decide
  rw [h4, h0] at hl
  omega

theorem ensureTag_empty {n : String} (s : AppState) (h : jsTrim n = "") :
    ensureTagExists n s = (none, s) := by
  simp [ensureTagExists, h]

theorem ensureTag_found {n : String} (s : AppState) {t : Tag} (hne : jsTrim n ≠ "")
    (h : findTagByName s.tags (jsTrim n) = some t) :
    ensureTagExists n s = (some t, s) := by
  simp [ensureTagExists, hne, h]

theorem ensureTag_new {n : String} (s : AppState) (hne : jsTrim n ≠ "")
    (h : findTagByName s.tags (jsTrim n) = none) :
    ensureTagExists n s =
      (some ⟨jsTrim n, colorForTagName (jsTrim n)⟩,
       { s with
           tags := jsSort tagCmp (s.tags ++ [⟨jsTrim n, colorForTagName (jsTrim n)⟩])
           storedTags :=
             jsSort tagCmp (s.tags ++ [⟨jsTrim n, colorForTagName (jsTrim n)⟩]) }) := by
  simp [ensureTagExists, hne, h]

theorem ensureTag_cases (n : String) (s : AppState) :
    (ensureTagExists n s).2 = s ∨
      ((ensureTagExists n s).2 =
          { s with
              tags := jsSort tagCmp
                (s.tags ++ [⟨jsTrim n, colorForTagName (jsTrim n)⟩])
              storedTags := jsSort tagCmp
                (s.tags ++ [⟨jsTrim n, colorForTagName (jsTrim n)⟩]) } ∧
        findTagByName s.tags (jsTrim n) = none ∧ jsTrim n ≠ "") := by
  by_cases h0 : jsTrim n = ""
  · left
    rw [ensureTag_empty s h0]
  · cases h : findTagByName s.tags (jsTrim n) with
    | none =>
      right
      rw [ensureTag_new s h0 h]
      exact ⟨rfl, rfl, h0⟩
    | some t =>
      left
      rw [ensureTag_found s h0 h]

theorem ensureTag_books (n : String) (s : AppState) :
    (ensureTagExists n s).2.books = s.books := by
  rcases ensureTag_cases n s with h | ⟨h, -, -⟩ <;> rw [h]

theorem ensureTag_storedBooks (n : String) (s : AppState) :
    (ensureTagExists n s).2.storedBooks = s.storedBooks := by
  rcases ensureTag_cases n s with h | ⟨h, -, -⟩ <;> rw [h]

theorem ensureTag_tagsInv (n : String) {s : AppState} (h : TagsInv s.tags) :
    TagsInv (ensureTagExists n s).2.tags := by
  rcases ensureTag_cases n s with he | ⟨he, hnone, -⟩
  · rw [he]; exact h
  · rw [he]
    refine ⟨tagsSorted_jsSort _, ?_⟩
    have hperm := jsSort_perm tagCmp
      (s.tags ++ [(⟨jsTrim n, colorForTagName (jsTrim n)⟩ : Tag)])
    rw [tagNamesNodup_perm hperm]
    have hnn := (findTagByName_none_iff s.tags (jsTrim n)).mp hnone
    rw [tagNamesNodup_perm
      (List.perm_append_singleton (⟨jsTrim n, colorForTagName (jsTrim n)⟩ : Tag) s.tags)]
    unfold TagNamesNodup
    rw [List.map_cons, List.nodup_cons]
    constructor
    · intro hmem
      rcases List.mem_map.mp hmem with ⟨x, hx, hxn⟩
      exact hnn x hx hxn
    · exact h.2

theorem ensureTag_colors (n : String) {s : AppState}
    (h : ∀ t ∈ s.tags, t.color ≠ "") :
    ∀ t ∈ (ensureTagExists n s).2.tags, t.color ≠ "" := by
  rcases ensureTag_cases n s with he | ⟨he, -, -⟩
  · rw [he]; exact h
  · rw [he]
    intro t ht
    have hperm := jsSort_perm tagCmp
      (s.tags ++ [(⟨jsTrim n, colorForTagName (jsTrim n)⟩ : Tag)])
    have := hperm.mem_iff.mp ht
    rcases List.mem_append.mp this with hm | hm
    · exact h t hm
    · rcases List.mem_singleton.mp hm with rfl
      exact colorForTagName_ne (jsTrim n)

theorem ensureTag_sorted (n : String) {s : AppState} (h : TagsSorted s.tags) :
    TagsSorted (ensureTagExists n s).2.tags := by
  rcases ensureTag_cases n s with he | ⟨he, -, -⟩
  · rw [he]; exact h
  · rw [he]; exact tagsSorted_jsSort _

theorem ensureTag_storedSync (n : String) {s : AppState}
    (h : s.storedTags = s.tags) :
    (ensureTagExists n s).2.storedTags = (ensureTagExists n s).2.tags := by
  rcases ensureTag_cases n s with he | ⟨he, -, -⟩ <;> rw [he]
  exact h

theorem ensureAllTags_books (l : List String) (s : AppState) :
    (ensureAllTags l s).books = s.books := by
  induction l generalizing s with
  | nil => rfl
  | cons x xs ih =>
    show (ensureAllTags xs (ensureTagExists x s).2).books = s.books
    rw [ih, ensureTag_books]

theorem ensureAllTags_storedBooks (l : List String) (s : AppState) :
    (ensureAllTags l s).storedBooks = s.storedBooks := by
  induction l generalizing s with
  | nil => rfl
  | cons x xs ih =>
    show (ensureAllTags xs (ensureTagExists x s).2).storedBooks = s.storedBooks
    rw [ih, ensureTag_storedBooks]

theorem ensureAllTags_pres (P : AppState → Prop)
    (hP : ∀ n s, P s → P (ensureTagExists n s).2) (l : List String) :
    ∀ s, P s → P (ensureAllTags l s) := by
  induction l with
  | nil => intro s h; exact h
  | cons x xs ih =>
    intro s h
    show P (ensureAllTags xs (ensureTagExists x s).2)
    exact ih _ (hP x s h)

theorem tagNamesNodup_append_new {ts : List Tag} {t : Tag} (h : TagNamesNodup ts)
    (hn : findTagByName ts t.name = none) : TagNamesNodup (ts ++ [t]) := by
  rw [tagNamesNodup_perm (List.perm_append_singleton t ts)]
  have hnn := (findTagByName_none_iff ts t.name).mp hn
  unfold TagNamesNodup
  rw [List.map_cons, List.nodup_cons]
  constructor
  · intro hmem
    rcases List.mem_map.mp hmem with ⟨x, hx, hxn⟩
    exact hnn x hx hxn
  · exact h

theorem deleteTag_cases (n : String) (c : Bool) (s : AppState) :
    deleteTag n c s = s ∨
      deleteTag n c s =
        { s with
            books := s.books.map fun b =>
              { b with tags := b.tags.filter (fun t => !(t == n)) }
            storedBooks := s.books.map fun b =>
              { b with tags := b.tags.filter (fun t => !(t == n)) }
            tags := s.tags.filter (fun t => !(t.name == n))
            storedTags := s.tags.filter (fun t => !(t.name == n)) } := by
  unfold deleteTag
  cases h : findTagByName s.tags n with
  | none => exact Or.inl rfl
  | some t =>
    cases c with
    | false => exact Or.inl rfl
    | true => exact Or.inr rfl

theorem tagsSorted_filter {ts : List Tag} (p : Tag → Bool) (h : TagsSorted ts) :
    TagsSorted (ts.filter p) :=
  List.Pairwise.sublist (List.filter_sublist ts) h

theorem tagNamesNodup_filter {ts : List Tag} (p : Tag → Bool) (h : TagNamesNodup ts) :
    TagNamesNodup (ts.filter p) :=
  ((List.filter_sublist ts).map Tag.name).nodup h

theorem saveForm_invalid {f : FormInput} (s : AppState)
    (h : jsTrim f.title = "" ∨ jsTrim f.author = "") :
    saveForm f s = (.validationError, s) := by
  unfold saveForm
  rcases h with h | h <;> simp [h]

theorem saveForm_fst_valid {f : FormInput} (s : AppState)
    (h1 : jsTrim f.title ≠ "") (h2 : jsTrim f.author ≠ "") :
    (saveForm f s).1 = .saved := by
  unfold saveForm
  simp [h1, h2]

theorem saveForm_snd_tags {f : FormInput} (s : AppState)
    (h1 : jsTrim f.title ≠ "") (h2 : jsTrim f.author ≠ "") :
    (saveForm f s).2.tags = (ensureAllTags (jsSetDedup f.checked) s).tags := by
  unfold saveForm
  simp [h1, h2]

theorem saveForm_snd_storedTags {f : FormInput} (s : AppState)
    (h1 : jsTrim f.title ≠ "") (h2 : jsTrim f.author ≠ "") :
    (saveForm f s).2.storedTags = (ensureAllTags (jsSetDedup f.checked) s).storedTags := by
  unfold saveForm
  simp [h1, h2]

theorem saveForm_snd_sync {f : FormInput} (s : AppState)
    (h1 : jsTrim f.title ≠ "") (h2 : jsTrim f.author ≠ "") :
    (saveForm f s).2.storedBooks = (saveForm f s).2.books := by
  unfold saveForm
  simp [h1, h2]

theorem saveForm_books_oob {f : FormInput} (s : AppState)
    (h1 : jsTrim f.title ≠ "") (h2 : jsTrim f.author ≠ "")
    (hidx : f.editingIndex < 0 ∨ (s.books.length : Int) ≤ f.editingIndex) :
    (saveForm f s).2.books = s.books ++ [bookFromForm f] := by
  unfold saveForm
  simp only [h1, h2]
  have hb := ensureAllTags_books (jsSetDedup f.checked) s
  have hcond : ¬ (0 ≤ f.editingIndex ∧
      f.editingIndex < ((ensureAllTags (jsSetDedup f.checked) s).books.length : Int)) := by
    rw [hb]
    omega
  simp [h1, h2, hb, hcond]
  intro h3 h4
  exfalso
  omega

theorem saveForm_books_inb {f : FormInput} (s : AppState)
    (h1 : jsTrim f.title ≠ "") (h2 : jsTrim f.author ≠ "")
    (hidx : 0 ≤ f.editingIndex ∧ f.editingIndex < (s.books.length : Int)) :
    (saveForm f s).2.books = s.books.set f.editingIndex.toNat (bookFromForm f) := by
  unfold saveForm
  simp only [h1, h2]
  have hb := ensureAllTags_books (jsSetDedup f.checked) s
  have hcond : (0 ≤ f.editingIndex ∧
      f.editingIndex < ((ensureAllTags (jsSetDedup f.checked) s).books.length : Int)) := by
    rw [hb]
    exact hidx
  simp [h1, h2, hb, hcond.1, hcond.2]
  intro h3
  exfalso
  omega

theorem jsSpliceOne_oob {l : List α} {i : Int} (h : (l.length : Int) ≤ i) :
    jsSpliceOne l i = l := by
  unfold jsSpliceOne
  have hi : ¬ i < 0 := by omega
  rw [if_neg hi]
  have hk : min i.toNat l.length = l.length := by
    apply Nat.min_eq_right
    omega
  rw [hk]
  show List.take l.length l ++ List.drop (l.length + 1) l = l
  rw [List.take_length, List.drop_eq_nil_of_le (by omega), List.append_nil]

theorem jsSpliceOne_neg {l : List α} {i : Int} (hneg : i < 0) :
    jsSpliceOne l i =
      l.take ((l.length : Int) + i).toNat
        ++ l.drop (((l.length : Int) + i).toNat + 1) := by
  unfold jsSpliceOne
  rw [if_pos hneg]

theorem jsSpliceOne_neg_length {l : List α} {i : Int} (hneg : i < 0) (hne : l ≠ []) :
    (jsSpliceOne l i).length = l.length - 1 := by
  rw [jsSpliceOne_neg hneg]
  rw [List.length_append, List.length_take, List.length_drop]
  have hlen : 0 < l.length := List.length_pos.mpr hne
  have hk : ((l.length : Int) + i).toNat ≤ l.length - 1 := by omega
  have hmin : min ((l.length : Int) + i).toNat l.length = ((l.length : Int) + i).toNat := by
    apply Nat.min_eq_left
    omega
  rw [hmin]
  omega

theorem deleteBook_books (i : Int) (s : AppState) :
    (deleteBook i true s).books = jsSpliceOne s.books i := rfl

theorem deleteBook_tags (i : Int) (c : Bool) (s : AppState) :
    (deleteBook i c s).tags = s.tags := by
  unfold deleteBook
  cases c <;> rfl

theorem deleteBook_storedTags (i : Int) (c : Bool) (s : AppState) :
    (deleteBook i c s).storedTags = s.storedTags := by
  unfold deleteBook
  cases c <;> rfl

theorem sortBy_tags (k : SortKey) (s : AppState) : (sortBy k s).tags = s.tags := rfl

theorem sortBy_storedTags (k : SortKey) (s : AppState) :
    (sortBy k s).storedTags = s.storedTags := rfl

theorem initFold_subset (l : List Tag) (ts : List Tag) :
    ∀ x ∈ ts, x ∈ l.foldl initStep ts := by
  induction l generalizing ts with
  | nil => intro x hx; exact hx
  | cons p ps ih =>
    intro x hx
    show x ∈ ps.foldl initStep (initStep ts p)
    apply ih
    unfold initStep
    split
    · exact hx
    · exact List.mem_append_left _ hx

theorem initStep_mem_name (ts : List Tag) (p : Tag) :
    ∃ t ∈ initStep ts p, t.name = p.name := by
  unfold initStep
  by_cases h : (findTagByName ts p.name).isSome
  · rw [if_pos h]
    obtain ⟨t, ht⟩ := Option.isSome_iff_exists.mp h
    have := findTagByName_some ts p.name t ht
    exact ⟨t, this.1, this.2⟩
  · rw [if_neg h]
    exact ⟨p, List.mem_append_right _ (List.mem_singleton.mpr rfl), rfl⟩

theorem initFold_mem_name (l : List Tag) (ts : List Tag) (p : Tag) (hp : p ∈ l) :
    ∃ t ∈ l.foldl initStep ts, t.name = p.name := by
  induction l generalizing ts with
  | nil => cases hp
  | cons q qs ih =>
    rcases List.mem_cons.mp hp with rfl | hmem
    · obtain ⟨t, htm, htn⟩ := initStep_mem_name ts p
      exact ⟨t, initFold_subset qs (initStep ts p) t htm, htn⟩
    · exact ih (initStep ts q) hmem

theorem initFold_src (l : List Tag) (ts : List Tag) :
    ∀ x ∈ l.foldl initStep ts, x ∈ ts ∨ x ∈ l := by
  induction l generalizing ts with
  | nil => intro x hx; exact Or.inl hx
  | cons q qs ih =>
    intro x hx
    have hx' : x ∈ qs.foldl initStep (initStep ts q) := hx
    rcases ih (initStep ts q) x hx' with hm | hm
    · unfold initStep at hm
      split at hm
      · exact Or.inl hm
      · rcases List.mem_append.mp hm with hm' | hm'
        · exact Or.inl hm'
        · exact Or.inr (List.mem_cons.mpr (Or.inl (List.mem_singleton.mp hm')))
    · exact Or.inr (List.mem_cons_of_mem q hm)

theorem initStep_nodup {ts : List Tag} (p : Tag) (h : TagNamesNodup ts) :
    TagNamesNodup (initStep ts p) := by
  unfold initStep
  by_cases hf : (findTagByName ts p.name).isSome
  · rw [if_pos hf]
    exact h
  · rw [if_neg hf]
    apply tagNamesNodup_append_new h
    cases hx : findTagByName ts p.name with
    | none => rfl
    | some t => rw [hx] at hf; exact absurd rfl hf

theorem initFold_nodup (l : List Tag) {ts : List Tag} (h : TagNamesNodup ts) :
    TagNamesNodup (l.foldl initStep ts) := by
  induction l generalizing ts with
  | nil => exact h
  | cons q qs ih =>
    show TagNamesNodup (qs.foldl initStep (initStep ts q))
    exact ih (initStep_nodup q h)

theorem predef_colors : ∀ t ∈ PREDEFINED_TAGS, t.color ≠ "" := by decide

theorem init_tags (s : AppState) :
    (init s).tags = jsSort tagCmp (PREDEFINED_TAGS.foldl initStep s.tags) := rfl

theorem init_books (s : AppState) : (init s).books = s.books := rfl

theorem init_storedBooks (s : AppState) : (init s).storedBooks = s.storedBooks := rfl

theorem init_storedTags (s : AppState) : (init s).storedTags = (init s).tags := rfl

theorem init_mem_predef (s : AppState) (p : Tag) (hp : p ∈ PREDEFINED_TAGS) :
    ∃ t ∈ (init s).tags, t.name = p.name := by
  rw [init_tags]
  obtain ⟨t, htm, htn⟩ := initFold_mem_name PREDEFINED_TAGS s.tags p hp
  exact ⟨t, (jsSort_perm tagCmp _).mem_iff.mpr htm, htn⟩

theorem init_nodup {s : AppState} (h : TagNamesNodup s.tags) :
    TagNamesNodup (init s).tags := by
  rw [init_tags]
  rw [tagNamesNodup_perm (jsSort_perm tagCmp _)]
  exact initFold_nodup PREDEFINED_TAGS h

theorem init_colors {s : AppState} (h : ∀ t ∈ s.tags, t.color ≠ "") :
    ∀ t ∈ (init s).tags, t.color ≠ "" := by
  rw [init_tags]
  intro t ht
  have := (jsSort_perm tagCmp _).mem_iff.mp ht
  rcases initFold_src PREDEFINED_TAGS s.tags t this with hm | hm
  · exact h t hm
  · exact predef_colors t hm

theorem loadTags_colors {st : Option (List Tag)}
    (h : ∀ l, st = some l → ∀ t ∈ l, t.color ≠ "") :
    ∀ t ∈ loadTags st, t.color ≠ "" := by
  intro t ht
  cases st with
  | none =>
    simp only [loadTags] at ht
    exact predef_colors t ((jsSort_perm tagCmp _).mem_iff.mp ht)
  | some parsed =>
    by_cases he : parsed.isEmpty
    · simp only [loadTags, he, if_true] at ht
      exact predef_colors t ((jsSort_perm tagCmp _).mem_iff.mp ht)
    · simp only [loadTags, he, if_false] at ht
      exact h parsed rfl t ((jsSort_perm tagCmp _).mem_iff.mp ht)

theorem loadTags_nodup {st : Option (List Tag)}
    (h : ∀ l, st = some l → TagNamesNodup l) :
    TagNamesNodup (loadTags st) := by
  have hpre : TagNamesNodup PREDEFINED_TAGS := by decide
  cases st with
  | none =>
    simp only [loadTags]
    exact (tagNamesNodup_perm (jsSort_perm tagCmp _)).mpr hpre
  | some parsed =>
    by_cases he : parsed.isEmpty
    · simp only [loadTags, he, if_true]
      exact (tagNamesNodup_perm (jsSort_perm tagCmp _)).mpr hpre
    · simp only [loadTags, he, if_false]
      exact (tagNamesNodup_perm (jsSort_perm tagCmp _)).mpr (h parsed rfl)

theorem startup_tags (sb : Option (List Book)) (st : Option (List Tag)) :
    (startup sb st).tags =
      jsSort tagCmp (PREDEFINED_TAGS.foldl initStep (loadTags st)) := rfl

theorem startup_stateInv (sb : Option (List Book)) (st : Option (List Tag))
    (h : ∀ l, st = some l → ∀ t ∈ l, t.color ≠ "") : StateInv (startup sb st) := by
  refine ⟨?_, ?_, ?_, ?_⟩
  · rw [startup_tags]
    exact tagsSorted_jsSort _
  · show ∀ t ∈ (init _).tags, t.color ≠ ""
    exact init_colors (loadTags_colors h)
  · rfl
  · rfl

theorem ensureTag_stateInv (n : String) {s : AppState} (h : StateInv s) :
    StateInv (ensureTagExists n s).2 := by
  obtain ⟨hs, hc, hb, ht⟩ := h
  refine ⟨ensureTag_sorted n hs, ensureTag_colors n hc, ?_, ensureTag_storedSync n ht⟩
  rw [ensureTag_storedBooks, ensureTag_books]
  exact hb

theorem deleteTag_stateInv (n : String) (c : Bool) {s : AppState} (h : StateInv s) :
    StateInv (deleteTag n c s) := by
  obtain ⟨hs, hc', hb, ht⟩ := h
  rcases deleteTag_cases n c s with he | he <;> rw [he]
  · exact ⟨hs, hc', hb, ht⟩
  · refine ⟨tagsSorted_filter _ hs, ?_, rfl, rfl⟩
    intro t htm
    exact hc' t (List.mem_filter.mp htm).1

theorem saveForm_stateInv (f : FormInput) {s : AppState} (h : StateInv s) :
    StateInv (saveForm f s).2 := by
  by_cases h1 : jsTrim f.title = ""
  · rw [saveForm_invalid s (Or.inl h1)]
    exact h
  · by_cases h2 : jsTrim f.author = ""
    · rw [saveForm_invalid s (Or.inr h2)]
      exact h
    · have hall : StateInv (ensureAllTags (jsSetDedup f.checked) s) :=
        ensureAllTags_pres StateInv (fun n s hp => ensureTag_stateInv n hp)
          (jsSetDedup f.checked) s h
      refine ⟨?_, ?_, ?_, ?_⟩
      · rw [saveForm_snd_tags s h1 h2]
        exact hall.1
      · rw [saveForm_snd_tags s h1 h2]
        exact hall.2.1
      · exact saveForm_snd_sync s h1 h2
      · rw [saveForm_snd_storedTags s h1 h2, saveForm_snd_tags s h1 h2]
        exact hall.2.2.2

theorem deleteBook_stateInv (i : Int) (c : Bool) {s : AppState} (h : StateInv s) :
    StateInv (deleteBook i c s) := by
  obtain ⟨hs, hc', hb, ht⟩ := h
  unfold deleteBook
  cases c with
  | false => exact ⟨hs, hc', hb, ht⟩
  | true => exact ⟨hs, hc', rfl, ht⟩

theorem sortBy_stateInv (k : SortKey) {s : AppState} (h : StateInv s) :
    StateInv (sortBy k s) := by
  obtain ⟨hs, hc', hb, ht⟩ := h
  exact ⟨hs, hc', rfl, ht⟩

theorem importTag_color (t : TagIn) : (importTag t).color ≠ "" := by
  cases t with
  | str s => exact colorForTagName_ne s
  | obj n c =>
    show (if c == "" then colorForTagName n else c) ≠ ""
    by_cases hc : c = ""
    · rw [if_pos (by simp [hc])]
      exact colorForTagName_ne n
    · rw [if_neg (by simp [hc])]
      exact hc

theorem importBackup_stateInv (inp : ImportInput) {s : AppState} (h : StateInv s) :
    StateInv (importBackup inp s).2 := by
  obtain ⟨hs, hc', hb, ht⟩ := h
  cases inp with
  | malformed => exact ⟨hs, hc', hb, ht⟩
  | parsed doc =>
    cases hdt : doc.tags with
    | none =>
      refine ⟨?_, ?_, rfl, rfl⟩ <;> simp only [importBackup, hdt]
      · exact hs
      · exact hc'
    | some ts =>
      refine ⟨?_, ?_, rfl, rfl⟩ <;> simp only [importBackup, hdt]
      · exact tagsSorted_jsSort _
      · intro t htm
        have := (jsSort_perm tagCmp _).mem_iff.mp htm
        rcases List.mem_map.mp this with ⟨x, -, rfl⟩
        exact importTag_color x

theorem reachable_stateInv {s : AppState} (h : Reachable s) : StateInv s := by
  induction h with
  | fresh => exact startup_stateInv none none (by intro l hl; cases hl)
  | restart hr ih =>
    apply startup_stateInv
    intro l hl t htm
    rw [Option.some_inj] at hl
    subst hl
    rw [ih.2.2.2] at htm
    exact ih.2.1 t htm
  | ensure name hr ih => exact ensureTag_stateInv name ih
  | delTag n c hr ih => exact deleteTag_stateInv n c ih
  | save f hr ih => exact saveForm_stateInv f ih
  | delBook i c hr ih => exact deleteBook_stateInv i c ih
  | sort k hr ih => exact sortBy_stateInv k ih
  | imp inp hr ih => exact importBackup_stateInv inp ih

theorem startup_tagsInv (sb : Option (List Book)) (st : Option (List Tag))
    (h : ∀ l, st = some l → TagNamesNodup l) : TagsInv (startup sb st).tags := by
  constructor
  · rw [startup_tags]
    exact tagsSorted_jsSort _
  · show TagNamesNodup (init _).tags
    exact init_nodup (loadTags_nodup h)

theorem deleteTag_tagsInv (n : String) (c : Bool) {s : AppState} (h : TagsInv s.tags) :
    TagsInv (deleteTag n c s).tags := by
  rcases deleteTag_cases n c s with he | he <;> rw [he]
  · exact h
  · exact ⟨tagsSorted_filter _ h.1, tagNamesNodup_filter _ h.2⟩

theorem saveForm_tagsInv (f : FormInput) {s : AppState} (h : TagsInv s.tags) :
    TagsInv (saveForm f s).2.tags := by
  by_cases h1 : jsTrim f.title = ""
  · rw [saveForm_invalid s (Or.inl h1)]
    exact h
  · by_cases h2 : jsTrim f.author = ""
    · rw [saveForm_invalid s (Or.inr h2)]
      exact h
    · rw [saveForm_snd_tags s h1 h2]
      exact ensureAllTags_pres (fun st => TagsInv st.tags)
        (fun n s hp => ensureTag_tagsInv n hp) (jsSetDedup f.checked) s h

theorem importTag_name (t : TagIn) : (importTag t).name = t.tagName := by
  cases t <;> rfl

theorem importBackup_tags_some (s : AppState) (b : Option (List Book)) (ts : List TagIn) :
    (importBackup (.parsed ⟨b, some ts⟩) s).2.tags = jsSort tagCmp (ts.map importTag) := rfl

theorem importBackup_tags_none (s : AppState) {doc : BackupDoc} (h : doc.tags = none) :
    (importBackup (.parsed doc) s).2.tags = s.tags := by
  simp only [importBackup, h]

theorem sortCmp_eq (key : SortKey) (o : Int) (a b : Book) :
    sortCmp key o a b = cmpCodes (sortFieldCodes key a) (sortFieldCodes key b) * o := by
  unfold sortCmp cmpCodes
  by_cases h1 : ltCodes (sortFieldCodes key a) (sortFieldCodes key b)
  · simp [h1]
  · by_cases h2 : ltCodes (sortFieldCodes key b) (sortFieldCodes key a)
    · simp [h1, h2]
    · simp [h1, h2]

theorem sortCmp_fun_eq (key : SortKey) (o : Int) :
    sortCmp key o = fun a b => cmpCodes (sortFieldCodes key a) (sortFieldCodes key b) * o :=
  funext fun a => funext fun b => sortCmp_eq key o a b

theorem jsSort_sortCmp_sorted (key : SortKey) (o : Int) (ho : o = 1 ∨ o = -1)
    (l : List Book) : List.Sorted (cmpLe (sortCmp key o)) (jsSort (sortCmp key o) l) := by
  rw [sortCmp_fun_eq key o]
  haveI := keyTotalMul (sortFieldCodes key) o ho
  haveI := keyTransMul (sortFieldCodes key) o ho
  exact jsSort_sorted _ l

theorem sorted_asc_of {key : SortKey} {l : List Book}
    (h : List.Sorted (cmpLe (sortCmp key 1)) l) :
    l.Sorted (fun a b => ltCodes (sortFieldCodes key b) (sortFieldCodes key a) = false) := by
  apply h.imp
  intro a b hab
  have hab' : sortCmp key 1 a b ≤ 0 := hab
  rw [sortCmp_eq, Int.mul_one] at hab'
  exact (cmpCodes_le_iff _ _).mp hab'

theorem sorted_desc_of {key : SortKey} {l : List Book}
    (h : List.Sorted (cmpLe (sortCmp key (-1))) l) :
    l.Sorted (fun a b => ltCodes (sortFieldCodes key a) (sortFieldCodes key b) = false) := by
  apply h.imp
  intro a b hab
  have hab' : sortCmp key (-1) a b ≤ 0 := hab
  rw [sortCmp_eq] at hab'
  have : 0 ≤ cmpCodes (sortFieldCodes key a) (sortFieldCodes key b) := by omega
  exact (cmpCodes_nonneg_iff _ _).mp this

theorem sortBy_lastKey (k : SortKey) (s : AppState) :
    (sortBy k s).lastSortKey = some k := rfl

theorem sortBy_order (k : SortKey) (s : AppState) :
    (sortBy k s).sortOrder = if s.lastSortKey = some k then -s.sortOrder else 1 := rfl

theorem sortBy_books (k : SortKey) (s : AppState) :
    (sortBy k s).books =
      jsSort (sortCmp k (if s.lastSortKey = some k then -s.sortOrder else 1)) s.books := rfl

theorem tags_component_iff (sel tags : List String) :
    (sel.isEmpty || sel.all fun t => tags.contains t) = true ↔ ∀ t ∈ sel, t ∈ tags := by
  simp only [Bool.or_eq_true, List.isEmpty_iff, List.all_eq_true]
  constructor
  · rintro (rfl | h)
    · intro t ht
      cases ht
    · intro t ht
      simpa using h t ht
  · intro h
    right
    intro t ht
    simpa using h t ht

theorem applyFilters_eq_spec (f : FilterInput) (books : List Book) :
    applyFilters f books = books.filter (fun b => decide (visibleSpec f b)) := by
  unfold applyFilters
  apply List.filter_congr
  intro b hb
  apply Bool.eq_iff_iff.mpr
  rw [decide_eq_true_iff]
  rw [Bool.and_eq_true, Bool.and_eq_true, Bool.and_eq_true]
  unfold visibleSpec
  constructor
  · rintro ⟨⟨⟨htext, hauthor⟩, hyear⟩, htags⟩
    refine ⟨?_, ?_, ?_, ?_⟩
    · unfold textMatchSpec
      simpa [Bool.or_eq_true, or_assoc] using htext
    · unfold authorMatchSpec
      simpa [Bool.or_eq_true] using hauthor
    · unfold yearMatchSpec
      simpa [Bool.or_eq_true] using hyear
    · unfold tagMatchSpec
      exact (tags_component_iff f.selectedTags b.tags).mp htags
  · rintro ⟨htext, hauthor, hyear, htags⟩
    refine ⟨⟨⟨?_, ?_⟩, ?_⟩, ?_⟩
    · unfold textMatchSpec at htext
      simpa [Bool.or_eq_true, or_assoc] using htext
    · unfold authorMatchSpec at hauthor
      simpa [Bool.or_eq_true] using hauthor
    · unfold yearMatchSpec at hyear
      simpa [Bool.or_eq_true] using hyear
    · exact (tags_component_iff f.selectedTags b.tags).mpr htags

theorem ensureTag_second_find {n : String} {s : AppState} (hnone : findTagByName s.tags (jsTrim n) = none) :
    findTagByName (jsSort tagCmp (s.tags ++ [⟨jsTrim n, colorForTagName (jsTrim n)⟩]))
      (jsTrim n) = some ⟨jsTrim n, colorForTagName (jsTrim n)⟩ := by
  unfold findTagByName
  apply find?_unique
  · apply (jsSort_perm tagCmp _).mem_iff.mpr
    exact List.mem_append_right _ (List.mem_singleton.mpr rfl)
  · simp
  · intro x hx hpx
    have hpx' : x.name = jsTrim n := by simpa using hpx
    have hx' := (jsSort_perm tagCmp _).mem_iff.mp hx
    rcases List.mem_append.mp hx' with hm | hm
    · exact absurd hpx' ((findTagByName_none_iff s.tags (jsTrim n)).mp hnone x hm)
    · exact List.mem_singleton.mp hm

/-- Claim C4: importBackup on a document that is not well-formed JSON signals
ImportError (the "Invalid JSON file." alert) and leaves the book list and the
tag store — both in memory and in storage — exactly unchanged. -/
theorem c4_malformed_import_unchanged (s : AppState) :
    importBackup .malformed s = (.importError, s)
    ∧ (importBackup .malformed s).2.books = s.books
    ∧ (importBackup .malformed s).2.tags = s.tags
    ∧ (importBackup .malformed s).2.storedBooks = s.storedBooks
    ∧ (importBackup .malformed s).2.storedTags = s.storedTags :=
  ⟨rfl, rfl, rfl, rfl, rfl⟩

/-- Claim C6: the visible-books projection equals a filter of the book list by
the conjunction of the four spec predicates (text, author, year, tags — each
empty filter matching everything), and therefore preserves the book list's
current order without re-sorting (the result is a sublist). -/
theorem c6_visible_books (f : FilterInput) (books : List Book) :
    applyFilters f books = books.filter (fun b => decide (visibleSpec f b))
    ∧ (applyFilters f books).Sublist books
    ∧ (∀ b, visibleSpec f b ↔
        (textMatchSpec f b ∧ authorMatchSpec f b ∧ yearMatchSpec f b ∧ tagMatchSpec f b)) := by
  refine ⟨applyFilters_eq_spec f books, ?_, fun b => Iff.rfl⟩
  rw [applyFilters_eq_spec f books]
  exact List.filter_sublist books

/-- Claim C9: a draft whose title or author is empty after trimming makes the
add/update operation fail with ValidationError, leaving the book list and the
tag store unchanged. -/
theorem c9_validation_aborts (s : AppState) (f : FormInput)
    (h : jsTrim f.title = "" ∨ jsTrim f.author = "") :
    saveForm f s = (.validationError, s)
    ∧ (saveForm f s).2.books = s.books
    ∧ (saveForm f s).2.tags = s.tags := by
  rw [saveForm_invalid s h]
  exact ⟨rfl, rfl, rfl⟩

/-- Witness for C9 at the spec's example add({title:"", author:"X"}). -/
theorem c9_witness :
    saveForm ⟨-1, "", "X", "", "", []⟩ (startup none none)
        = (.validationError, startup none none)
    ∧ (saveForm ⟨-1, "", "X", "", "", []⟩ (startup none none)).2.books
        = (startup none none).books
    ∧ (saveForm ⟨-1, "", "X", "", "", []⟩ (startup none none)).2.tags
        = (startup none none).tags :=
  c9_validation_aborts (startup none none) ⟨-1, "", "X", "", "", []⟩ (Or.inl (by decide))

/-- Claim C10: after initialization every predefined tag is present regardless
of the persisted state; init persists what it built, so an explicit deletion of
a predefined tag is undone at the next page load. -/
theorem c10_predefined_reinserted :
    (∀ (sb : Option (List Book)) (st : Option (List Tag)) (p : Tag),
        p ∈ PREDEFINED_TAGS → ∃ t ∈ (startup sb st).tags, t.name = p.name)
    ∧ (∀ (s : AppState) (p : Tag), p ∈ PREDEFINED_TAGS →
        ∃ t ∈ (init s).tags, t.name = p.name)
    ∧ (∀ s : AppState, (init s).storedTags = (init s).tags)
    ∧ (∀ (s : AppState) (n : String) (c : Bool) (p : Tag), p ∈ PREDEFINED_TAGS →
        ∃ t ∈ (startup (some (deleteTag n c s).storedBooks)
            (some (deleteTag n c s).storedTags)).tags, t.name = p.name) := by
  refine ⟨?_, ?_, ?_, ?_⟩
  · intro sb st p hp
    exact init_mem_predef _ p hp
  · intro s p hp
    exact init_mem_predef s p hp
  · intro s
    exact init_storedTags s
  · intro s n c p hp
    exact init_mem_predef _ p hp

/-- Witness for C10: deleting the predefined tag Math (confirmed) and then
reloading from the stored state restores a tag named Math. -/
theorem c10_witness :
    ∃ t ∈ (startup (some (deleteTag "Math" true (startup none none)).storedBooks)
        (some (deleteTag "Math" true (startup none none)).storedTags)).tags,
      t.name = (⟨"Math", "#2f9e44"⟩ : Tag).name :=
  c10_predefined_reinserted.2.2.2 (startup none none) "Math" true
    ⟨"Math", "#2f9e44"⟩ (by decide)

/-- Claim C2 counterexample: on an empty book list, saving the form with the
out-of-bounds index 0 does not fail and does not leave the list unchanged — it
appends the book (the code's add path swallows every out-of-bounds index). -/
theorem c2_counterexample :
    (saveForm ⟨0, "T", "A", "", "", []⟩ (startup none none)).1 = SaveResult.saved
    ∧ (saveForm ⟨0, "T", "A", "", "", []⟩ (startup none none)).2.books
        ≠ (startup none none).books := by
  constructor <;> decide

/-- Claim C2 (amended): for every out-of-bounds index (negative, or at least
the list length) and every draft passing validation, the update operation does
not raise an IndexError: it succeeds and appends the normalized book at the
end, leaving all existing entries in place. -/
theorem c2_amended_oob_appends (f : FormInput) (s : AppState)
    (h1 : jsTrim f.title ≠ "") (h2 : jsTrim f.author ≠ "")
    (hidx : f.editingIndex < 0 ∨ (s.books.length : Int) ≤ f.editingIndex) :
    (saveForm f s).1 = SaveResult.saved
    ∧ (saveForm f s).2.books = s.books ++ [bookFromForm f] :=
  ⟨saveForm_fst_valid s h1 h2, saveForm_books_oob s h1 h2 hidx⟩

/-- Witness for C2's amended statement at index 5 on an empty list. -/
theorem c2_witness :
    (saveForm ⟨5, "T", "A", "", "", []⟩ (startup none none)).1 = SaveResult.saved
    ∧ (saveForm ⟨5, "T", "A", "", "", []⟩ (startup none none)).2.books
        = (startup none none).books ++ [bookFromForm ⟨5, "T", "A", "", "", []⟩] :=
  c2_amended_oob_appends ⟨5, "T", "A", "", "", []⟩ (startup none none)
    (by decide) (by decide) (by decide)

/-- Claim C3 counterexample: the confirmed deleteBook(-1) on a one-book list is
not a no-op — JS splice counts the negative index from the end and removes the
last book. -/
theorem c3_counterexample :
    (deleteBook (-1) true oneBookState).books ≠ oneBookState.books := by decide

/-- Claim C3 (amended): the confirmed delete is a no-op exactly for indices at
least the list length; a negative index deletes the book at position
max(length + index, 0), so on a nonempty list it shrinks the list by one. -/
theorem c3_amended_delete_bounds (s : AppState) (i : Int) :
    ((s.books.length : Int) ≤ i → (deleteBook i true s).books = s.books)
    ∧ (i < 0 → (deleteBook i true s).books =
        s.books.take ((s.books.length : Int) + i).toNat
          ++ s.books.drop (((s.books.length : Int) + i).toNat + 1))
    ∧ (i < 0 → s.books ≠ [] → (deleteBook i true s).books.length = s.books.length - 1) := by
  refine ⟨?_, ?_, ?_⟩
  · intro h
    rw [deleteBook_books]
    exact jsSpliceOne_oob h
  · intro h
    rw [deleteBook_books]
    exact jsSpliceOne_neg h
  · intro h hne
    rw [deleteBook_books]
    exact jsSpliceOne_neg_length h hne

/-- Witness for C3's amended statement: index 3 is a no-op on a one-book list,
and index -1 shrinks it by one. -/
theorem c3_witness :
    (deleteBook 3 true oneBookState).books = oneBookState.books
    ∧ (deleteBook (-1) true oneBookState).books.length = oneBookState.books.length - 1 :=
  ⟨(c3_amended_delete_bounds oneBookState 3).1 (by decide),
   (c3_amended_delete_bounds oneBookState (-1)).2.2 (by decide) (by decide)⟩

/-- Claim C5: exporting a backup and re-importing the produced document
restores the state exactly (books, tags, and storage), with a success result,
for every state the script itself can reach. -/
theorem c5_export_import_roundtrip (s : AppState) (h : Reachable s) :
    importBackup (.parsed (exportBackup s)) s = (.success, s) := by
  have hinv := reachable_stateInv h
  obtain ⟨bks, tgs, k, o, sbk, stg⟩ := s
  obtain ⟨hs, hc, hb, ht⟩ := hinv
  have hb' : bks = sbk := Eq.symm hb
  have ht' : tgs = stg := Eq.symm ht
  subst hb'
  subst ht'
  have hs' : List.Sorted (cmpLe tagCmp) tgs := hs
  have hc' : ∀ t ∈ tgs, t.color ≠ "" := hc
  have hmap : List.map importTag (tgs.map fun t => TagIn.obj t.name t.color) = tgs := by
    rw [List.map_map]
    have hcong : ∀ t ∈ tgs, (importTag ∘ fun t => TagIn.obj t.name t.color) t = id t := by
      intro t htm
      show importTag (TagIn.obj t.name t.color) = t
      show (⟨t.name, if t.color == "" then colorForTagName t.name else t.color⟩ : Tag) = t
      rw [if_neg (by simp [hc' t htm])]
    rw [List.map_congr_left hcong, List.map_id]
  show (ImportResult.success,
      AppState.mk bks
        (jsSort tagCmp (List.map importTag (tgs.map fun t => TagIn.obj t.name t.color)))
        k o bks
        (jsSort tagCmp (List.map importTag (tgs.map fun t => TagIn.obj t.name t.color))))
    = (ImportResult.success, AppState.mk bks tgs k o bks tgs)
  rw [hmap, jsSort_eq_self tagCmp hs']

/-- Witness for C5 at the fresh first-run state. -/
theorem c5_witness :
    importBackup (.parsed (exportBackup (startup none none))) (startup none none)
      = (.success, startup none none) :=
  c5_export_import_roundtrip (startup none none) Reachable.fresh

/-- Claim C7: sortBy compares the chosen field case-insensitively as a string
(the result is sorted by the lowercased field's code units, ascending or
descending with the direction), toggles the direction when the same key is
repeated and resets to ascending on a new key, and on the spec's two-book
example yields titles A,B then B,A. -/
theorem c7_sortBy (s : AppState) (key : SortKey)
    (ho : s.sortOrder = 1 ∨ s.sortOrder = -1) :
    ((sortBy key s).lastSortKey = some key)
    ∧ ((sortBy key s).sortOrder = 1 ∨ (sortBy key s).sortOrder = -1)
    ∧ (s.lastSortKey = some key → (sortBy key s).sortOrder = -s.sortOrder)
    ∧ (s.lastSortKey ≠ some key → (sortBy key s).sortOrder = 1)
    ∧ (sortBy key s).books.Perm s.books
    ∧ ((sortBy key s).sortOrder = 1 →
        (sortBy key s).books.Sorted
          (fun a b => ltCodes (sortFieldCodes key b) (sortFieldCodes key a) = false))
    ∧ ((sortBy key s).sortOrder = -1 →
        (sortBy key s).books.Sorted
          (fun a b => ltCodes (sortFieldCodes key a) (sortFieldCodes key b) = false))
    ∧ ((sortBy SortKey.title twoBookState).books.map Book.title = ["A", "B"])
    ∧ ((applyFilters ⟨"", "", "", []⟩
          (sortBy SortKey.title (sortBy SortKey.title twoBookState)).books).map Book.title
        = ["B", "A"]) := by
  refine ⟨rfl, ?_, ?_, ?_, ?_, ?_, ?_, by decide, by decide⟩
  · rw [sortBy_order]
    by_cases hk : s.lastSortKey = some key
    · rw [if_pos hk]
      rcases ho with h | h <;> rw [h]
      · right; rfl
      · left; rfl
    · rw [if_neg hk]
      left; rfl
  · intro hk
    rw [sortBy_order, if_pos hk]
  · intro hk
    rw [sortBy_order, if_neg hk]
  · rw [sortBy_books]
    exact jsSort_perm _ _
  · intro h1
    have h1' : (if s.lastSortKey = some key then -s.sortOrder else 1) = 1 := h1
    rw [sortBy_books, h1']
    exact sorted_asc_of (jsSort_sortCmp_sorted key 1 (Or.inl rfl) s.books)
  · intro h1
    have h1' : (if s.lastSortKey = some key then -s.sortOrder else 1) = -1 := h1
    rw [sortBy_books, h1']
    exact sorted_desc_of (jsSort_sortCmp_sorted key (-1) (Or.inr rfl) s.books)

/-- Witness for C7 at the spec's two-book example state. -/
theorem c7_witness :
    (sortBy SortKey.title twoBookState).books.Perm twoBookState.books :=
  (c7_sortBy twoBookState SortKey.title (Or.inl rfl)).2.2.2.2.1

/-- Claim C8: ensureTag is idempotent — an empty-after-trim name is a no-op
returning nothing; otherwise the second call with the same name returns the
same stored tag and the same state as the first, and the store grows by at
most one across the two calls. -/
theorem c8_ensureTag_idempotent (s : AppState) (n : String) :
    (jsTrim n = "" → ensureTagExists n s = (none, s))
    ∧ (ensureTagExists n (ensureTagExists n s).2).1 = (ensureTagExists n s).1
    ∧ (ensureTagExists n (ensureTagExists n s).2).2 = (ensureTagExists n s).2
    ∧ (ensureTagExists n s).2.tags.length ≤ s.tags.length + 1
    ∧ (ensureTagExists n (ensureTagExists n s).2).2.tags.length ≤ s.tags.length + 1 := by
  by_cases h0 : jsTrim n = ""
  · have h1 := ensureTag_empty s h0
    have hs2 : (ensureTagExists n s).2 = s := congrArg Prod.snd h1
    refine ⟨fun _ => h1, ?_, ?_, ?_, ?_⟩
    · rw [hs2]
    · rw [hs2]
      exact hs2
    · rw [hs2]
      exact Nat.le_succ _
    · rw [hs2, hs2]
      exact Nat.le_succ _
  · cases hf : findTagByName s.tags (jsTrim n) with
    | some t =>
      have h1 := ensureTag_found s h0 hf
      have hs2 : (ensureTagExists n s).2 = s := congrArg Prod.snd h1
      refine ⟨fun he => absurd he h0, ?_, ?_, ?_, ?_⟩
      · rw [hs2]
      · rw [hs2]
        exact hs2
      · rw [hs2]
        exact Nat.le_succ _
      · rw [hs2, hs2]
        exact Nat.le_succ _
    | none =>
      have h1 := ensureTag_new s h0 hf
      have hs2 := congrArg Prod.snd h1
      have hfind2 := ensureTag_second_find hf
      have h2 := ensureTag_found
        ({ s with
            tags := jsSort tagCmp (s.tags ++ [⟨jsTrim n, colorForTagName (jsTrim n)⟩])
            storedTags :=
              jsSort tagCmp (s.tags ++ [⟨jsTrim n, colorForTagName (jsTrim n)⟩]) })
        h0 hfind2
      have hlen : (jsSort tagCmp
          (s.tags ++ [⟨jsTrim n, colorForTagName (jsTrim n)⟩])).length
          = s.tags.length + 1 := by
        rw [(jsSort_perm tagCmp _).length_eq, List.length_append]
        rfl
      refine ⟨fun he => absurd he h0, ?_, ?_, ?_, ?_⟩
      · rw [hs2, h2, h1]
      · rw [hs2, h2]
      · rw [hs2]
        show (jsSort tagCmp
            (s.tags ++ [⟨jsTrim n, colorForTagName (jsTrim n)⟩])).length
            ≤ s.tags.length + 1
        rw [hlen]
      · rw [hs2, h2]
        show (jsSort tagCmp
            (s.tags ++ [⟨jsTrim n, colorForTagName (jsTrim n)⟩])).length
            ≤ s.tags.length + 1
        rw [hlen]

/-- Witness for C8 on a custom tag name with surrounding whitespace. -/
theorem c8_witness :
    (jsTrim " zeta " = "" →
        ensureTagExists " zeta " (startup none none) = (none, startup none none))
    ∧ (ensureTagExists " zeta " (ensureTagExists " zeta " (startup none none)).2).1
        = (ensureTagExists " zeta " (startup none none)).1
    ∧ (ensureTagExists " zeta " (ensureTagExists " zeta " (startup none none)).2).2
        = (ensureTagExists " zeta " (startup none none)).2
    ∧ (ensureTagExists " zeta " (startup none none)).2.tags.length
        ≤ (startup none none).tags.length + 1
    ∧ (ensureTagExists " zeta "
          (ensureTagExists " zeta " (startup none none)).2).2.tags.length
        ≤ (startup none none).tags.length + 1 :=
  c8_ensureTag_idempotent (startup none none) " zeta "

/-- Claim C1 counterexample: importBackup applied to a well-formed document
whose tags array repeats a name produces a tag store with two tags named "a" —
the import path never deduplicates, refuting the universally quantified
no-duplicates claim. -/
theorem c1_counterexample :
    ¬ TagNamesNodup ((importBackup (.parsed ⟨none, some [.str "a", .str "a"]⟩)
        (startup none none)).2.tags) := by decide

/-- Claim C1 (amended): after every mutating operation the tag store is sorted
ascending by name; it is additionally duplicate-free after ensureTag,
deleteTag, saveForm and load/init (given duplicate-free inputs), and after
importBackup exactly when the imported tags array itself repeats no name. -/
theorem c1_amended_tagstore_invariant :
    (∀ (s : AppState) (n : String), TagsInv s.tags →
        TagsInv (ensureTagExists n s).2.tags)
    ∧ (∀ (s : AppState) (n : String) (c : Bool), TagsInv s.tags →
        TagsInv (deleteTag n c s).tags)
    ∧ (∀ (s : AppState) (f : FormInput), TagsInv s.tags →
        TagsInv (saveForm f s).2.tags)
    ∧ (∀ sb : Option (List Book), TagsInv (startup sb none).tags)
    ∧ (∀ (sb : Option (List Book)) (l : List Tag), TagNamesNodup l →
        TagsInv (startup sb (some l)).tags)
    ∧ (∀ (s : AppState) (doc : BackupDoc), TagsSorted s.tags →
        TagsSorted (importBackup (.parsed doc) s).2.tags)
    ∧ (∀ (s : AppState) (b : Option (List Book)) (ts : List TagIn), TagsInv s.tags →
        (ts.map TagIn.tagName).Nodup →
        TagsInv (importBackup (.parsed ⟨b, some ts⟩) s).2.tags) := by
  refine ⟨?_, ?_, ?_, ?_, ?_, ?_, ?_⟩
  · intro s n h
    exact ensureTag_tagsInv n h
  · intro s n c h
    exact deleteTag_tagsInv n c h
  · intro s f h
    exact saveForm_tagsInv f h
  · intro sb
    exact startup_tagsInv sb none (by intro l hl; cases hl)
  · intro sb l hl
    apply startup_tagsInv
    intro l' hl'
    rw [Option.some_inj] at hl'
    rw [← hl']
    exact hl
  · intro s doc hs
    cases hdt : doc.tags with
    | none =>
      rw [importBackup_tags_none s hdt]
      exact hs
    | some ts =>
      have he : (importBackup (.parsed doc) s).2.tags = jsSort tagCmp (ts.map importTag) := by
        simp only [importBackup, hdt]
      rw [he]
      exact tagsSorted_jsSort _
  · intro s b ts hinv hnd
    rw [importBackup_tags_some]
    refine ⟨tagsSorted_jsSort _, ?_⟩
    rw [tagNamesNodup_perm (jsSort_perm tagCmp _)]
    unfold TagNamesNodup
    rw [List.map_map]
    have hcomp : (Tag.name ∘ importTag) = TagIn.tagName := funext importTag_name
    rw [hcomp]
    exact hnd

/-- Witness for C1's amended statement: importing a duplicate-free tags array
over the fresh state yields a sorted, duplicate-free store. -/
theorem c1_witness :
    TagsInv ((importBackup (.parsed ⟨none, some [.str "b", .str "a"]⟩)
        (startup none none)).2.tags) :=
  c1_amended_tagstore_invariant.2.2.2.2.2.2 (startup none none) none
    [.str "b", .str "a"] (by decide) (by decide)
